import Mathlib

/-!
Verification of the markov-mail model export, weighting, and calibration
pipeline: threshold generation, per-threshold confusion-matrix metrics,
tree serialization, sample weighting, and the Platt-scaling contract.
Numeric values are modelled as exact rationals; Python's `round(x, 4)`
is modelled as round-half-to-even at 4 decimal places.
-/

/-- Round-half-to-even of a rational to an integer, the tie-breaking rule of
Python's built-in `round`. -/
def rhe (q : ℚ) : ℤ :=
  if q - ⌊q⌋ < 1/2 then ⌊q⌋
  else if 1/2 < q - ⌊q⌋ then ⌊q⌋ + 1
  else if ⌊q⌋ % 2 = 0 then ⌊q⌋ else ⌊q⌋ + 1

/-- Python's `round(q, 4)`: round to 4 decimal places, ties to even. -/
def round4 (q : ℚ) : ℚ := (rhe (q * 10000) : ℚ) / 10000

theorem rhe_intCast (n : ℤ) : rhe (n : ℚ) = n := by
  simp [rhe, Int.floor_intCast]

theorem rhe_le (q : ℚ) : (rhe q : ℚ) ≤ q + 1/2 := by
  have h1 : ((⌊q⌋ : ℤ) : ℚ) ≤ q := Int.floor_le q
  have h2 : q < (⌊q⌋ : ℤ) + 1 := Int.lt_floor_add_one q
  unfold rhe
  split_ifs <;> push_cast <;> linarith

theorem le_rhe (q : ℚ) : q - 1/2 ≤ (rhe q : ℚ) := by
  have h1 : ((⌊q⌋ : ℤ) : ℚ) ≤ q := Int.floor_le q
  have h2 : q < (⌊q⌋ : ℤ) + 1 := Int.lt_floor_add_one q
  unfold rhe
  split_ifs <;> push_cast <;> linarith

theorem floor_le_rhe (q : ℚ) : ⌊q⌋ ≤ rhe q := by
  unfold rhe; split_ifs <;> omega

theorem rhe_le_floor_add_one (q : ℚ) : rhe q ≤ ⌊q⌋ + 1 := by
  unfold rhe; split_ifs <;> omega

theorem rhe_mono {x y : ℚ} (h : x ≤ y) : rhe x ≤ rhe y := by
  have hf : ⌊x⌋ ≤ ⌊y⌋ := Int.floor_mono h
  rcases eq_or_lt_of_le hf with heq | hlt
  · have hcast : ((⌊x⌋ : ℤ) : ℚ) = ((⌊y⌋ : ℤ) : ℚ) := by rw [heq]
    have hxy : x - (⌊y⌋ : ℚ) ≤ y - (⌊y⌋ : ℚ) := by linarith
    unfold rhe
    rw [heq] at hcast ⊢
    split_ifs <;> first | omega | (exfalso; linarith)
  · calc rhe x ≤ ⌊x⌋ + 1 := rhe_le_floor_add_one x
    _ ≤ ⌊y⌋ := by omega
    _ ≤ rhe y := floor_le_rhe y

theorem round4_mono {x y : ℚ} (h : x ≤ y) : round4 x ≤ round4 y := by
  unfold round4
  have : rhe (x * 10000) ≤ rhe (y * 10000) := rhe_mono (by nlinarith)
  have h2 : ((rhe (x * 10000) : ℤ) : ℚ) ≤ ((rhe (y * 10000) : ℤ) : ℚ) := by exact_mod_cast this
  linarith

theorem round4_int_div (a : ℤ) : round4 ((a : ℚ) / 10000) = (a : ℚ) / 10000 := by
  unfold round4
  rw [show ((a : ℚ) / 10000) * 10000 = (a : ℚ) by field_simp, rhe_intCast]

theorem round4_zero : round4 0 = 0 := by
  have := round4_int_div 0
  simpa using this

theorem round4_one : round4 1 = 1 := by
  have := round4_int_div 10000
  norm_num at this
  simpa using this

theorem round4_le (q : ℚ) : round4 q ≤ q + 1/20000 := by
  unfold round4
  have := rhe_le (q * 10000)
  linarith

theorem le_round4 (q : ℚ) : q - 1/20000 ≤ round4 q := by
  unfold round4
  have := le_rhe (q * 10000)
  linarith

theorem round4_mem_unit {x : ℚ} (h0 : 0 ≤ x) (h1 : x ≤ 1) :
    0 ≤ round4 x ∧ round4 x ≤ 1 := by
  constructor
  · have := round4_mono h0
    rwa [round4_zero] at this
  · have := round4_mono h1
    rwa [round4_one] at this

theorem round4_eq_down (q : ℚ) (n : ℤ) (h1 : (n : ℚ) ≤ q * 10000)
    (h2 : q * 10000 < (n : ℚ) + 1/2) : round4 q = (n : ℚ) / 10000 := by
  have hfl : ⌊q * 10000⌋ = n := by
    rw [Int.floor_eq_iff]
    exact ⟨h1, by linarith⟩
  unfold round4 rhe
  rw [hfl, if_pos (by linarith)]

/-! ## Threshold generation (`generate_thresholds` in `calibrate_scores.py`)

The source is a `while current <= max_threshold + epsilon` loop with
`epsilon = step / 10`, appending `round(current, 4)` and incrementing by
`step`.  The loop is preceded by two fatal validations, modelled with
`Except.error`. -/

def errStep : String := "--threshold-step must be greater than 0"

def errRange : String := "--threshold-max must be greater than or equal to --threshold-min"

def errMissingInput : String := "Calibration input file not found"

def errMissingColumns : String := "Calibration CSV must contain score and label columns."

def thrLoop (maxT step : ℚ) (hstep : 0 < step) (current : ℚ) : List ℚ :=
  if _h : current ≤ maxT + step / 10 then
    round4 current :: thrLoop maxT step hstep (current + step)
  else
    []
termination_by (⌊(maxT + step / 10 - current) / step⌋ + 1).toNat
decreasing_by
  have hs0 : step ≠ 0 := ne_of_gt hstep
  have key : (maxT + step / 10 - (current + step)) / step
      = (maxT + step / 10 - current) / step - 1 := by
    field_simp
    ring
  have hx : (0:ℚ) ≤ (maxT + step / 10 - current) / step :=
    div_nonneg (by linarith) (le_of_lt hstep)
  have hfl : 0 ≤ ⌊(maxT + step / 10 - current) / step⌋ := Int.floor_nonneg.mpr hx
  rw [key, Int.floor_sub_one]
  omega

def generate_thresholds (minT maxT step : ℚ) : Except String (List ℚ) :=
  if hs : step ≤ 0 then Except.error errStep
  else if maxT < minT then Except.error errRange
  else Except.ok (thrLoop maxT step (not_le.mp hs) minT)

theorem thrLoop_eq_map (maxT step : ℚ) (hstep : 0 < step) (current : ℚ) :
    thrLoop maxT step hstep current =
      (List.range (⌊(maxT + step / 10 - current) / step⌋ + 1).toNat).map
        (fun (k : ℕ) => round4 (current + (k : ℚ) * step)) := by
  generalize hn : (⌊(maxT + step / 10 - current) / step⌋ + 1).toNat = n
  induction n generalizing current with
  | zero =>
    have hneg : ⌊(maxT + step / 10 - current) / step⌋ + 1 ≤ 0 := by omega
    have hcond : ¬ current ≤ maxT + step / 10 := by
      intro hc
      have hx : (0:ℚ) ≤ (maxT + step / 10 - current) / step :=
        div_nonneg (by linarith) (le_of_lt hstep)
      have := Int.floor_nonneg.mpr hx
      omega
    rw [thrLoop, dif_neg hcond]
    simp
  | succ n ih =>
    have hfl : 0 ≤ ⌊(maxT + step / 10 - current) / step⌋ := by omega
    have hx : (0:ℚ) ≤ (maxT + step / 10 - current) / step := by
      have := Int.floor_le ((maxT + step / 10 - current) / step)
      have h2 : ((0:ℤ):ℚ) ≤ (⌊(maxT + step / 10 - current) / step⌋ : ℚ) := by
        exact_mod_cast hfl
      linarith
    have hcond : current ≤ maxT + step / 10 := by
      by_contra hc
      push_neg at hc
      have hlt : (maxT + step / 10 - current) / step < 0 :=
        div_neg_of_neg_of_pos (by linarith) hstep
      linarith
    rw [thrLoop, dif_pos hcond]
    have hs0 : step ≠ 0 := ne_of_gt hstep
    have key : (maxT + step / 10 - (current + step)) / step
        = (maxT + step / 10 - current) / step - 1 := by
      field_simp
      ring
    have hn2 : (⌊(maxT + step / 10 - (current + step)) / step⌋ + 1).toNat = n := by
      rw [key, Int.floor_sub_one]
      omega
    rw [ih (current + step) hn2]
    rw [List.range_succ_eq_map, List.map_cons, List.map_map]
    congr 1
    · norm_num
    · apply List.map_congr_left
      intro k _
      simp only [Function.comp]
      congr 1
      push_cast
      ring

theorem generate_thresholds_ok (minT maxT step : ℚ) (hstep : 0 < step) (hle : minT ≤ maxT) :
    ∃ L, generate_thresholds minT maxT step = Except.ok L ∧
      L = (List.range (⌊(maxT - minT + step / 10) / step⌋ + 1).toNat).map
        (fun (k : ℕ) => round4 (minT + (k : ℚ) * step)) := by
  have hns : ¬ step ≤ 0 := not_le.mpr hstep
  refine ⟨_, by rw [generate_thresholds, dif_neg hns, if_neg (not_lt.mpr hle)], ?_⟩
  rw [thrLoop_eq_map]
  have e : maxT + step / 10 - minT = maxT - minT + step / 10 := by ring
  rw [e]

/-- C2 (amended): for `step > 0` and `max ≥ min` the generator succeeds and
returns the rounded arithmetic sequence `round4 (min + k·step)`; the number of
thresholds is `⌊(max − min + step/10)/step⌋ + 1` (the `step/10` tolerance is
part of the count); when `max − min` is an exact multiple of `step` this is
the claimed `⌊(max − min)/step⌋ + 1` and the scan ends at `max`. -/
theorem generate_thresholds_count (minT maxT step : ℚ) (hstep : 0 < step) (hle : minT ≤ maxT) :
    ∃ L, generate_thresholds minT maxT step = Except.ok L ∧
      L = (List.range L.length).map (fun (k : ℕ) => round4 (minT + (k : ℚ) * step)) ∧
      L.length = (⌊(maxT - minT + step / 10) / step⌋ + 1).toNat ∧
      ∀ k : ℕ, maxT = minT + (k : ℚ) * step →
        L.length = k + 1 ∧ (k : ℤ) = ⌊(maxT - minT) / step⌋ ∧
          L.getLast? = some (round4 maxT) := by
  obtain ⟨L, hok, hmap⟩ := generate_thresholds_ok minT maxT step hstep hle
  have hlen : L.length = (⌊(maxT - minT + step / 10) / step⌋ + 1).toNat := by
    rw [hmap, List.length_map, List.length_range]
  refine ⟨L, hok, by rw [← hlen] at hmap; exact hmap, hlen, ?_⟩
  intro k hk
  have hs0 : step ≠ 0 := ne_of_gt hstep
  have hq : (maxT - minT + step / 10) / step = (k : ℚ) + 1/10 := by
    rw [hk]
    field_simp
    ring
  have hfl : ⌊(maxT - minT + step / 10) / step⌋ = (k : ℤ) := by
    rw [hq, Int.floor_eq_iff]
    constructor
    · push_cast
      linarith
    · push_cast
      linarith
  have hlen2 : L.length = k + 1 := by
    rw [hlen, hfl]
    omega
  refine ⟨hlen2, ?_, ?_⟩
  · have hq2 : (maxT - minT) / step = (k : ℚ) := by
      rw [hk]
      field_simp
    rw [hq2]
    exact (Int.floor_natCast k).symm
  · rw [← hlen] at hmap
    rw [hmap, hlen2, List.range_succ, List.map_append, List.map_cons, List.map_nil,
      List.getLast?_concat, ← hk]

/-- C2 (counterexample): with min = 0, max = 0.95, step = 0.5 the generator
emits [0, 0.5, 1.0] — three thresholds instead of the claimed
⌊(max−min)/step⌋ + 1 = 2, the last one exceeding max, and max itself missing. -/
theorem generate_thresholds_count_counterexample :
    generate_thresholds 0 (19/20) (1/2) = Except.ok [0, 1/2, 1] ∧
    ¬ ([(0:ℚ), 1/2, 1].length = (⌊(((19:ℚ)/20 - 0) / (1/2))⌋ + 1).toNat) ∧
    (19:ℚ)/20 ∉ [(0:ℚ), 1/2, 1] ∧ (1:ℚ) ∈ [(0:ℚ), 1/2, 1] ∧ (19:ℚ)/20 < 1 := by
  refine ⟨?_, ?_, ?_, ?_, ?_⟩
  · obtain ⟨L, hok, hmap⟩ := generate_thresholds_ok 0 (19/20) (1/2) (by norm_num) (by norm_num)
    have e : ((19:ℚ)/20 - 0 + (1/2) / 10) / (1/2) = 2 := by norm_num
    have hN : (⌊((19:ℚ)/20 - 0 + (1/2) / 10) / (1/2)⌋ + 1).toNat = 3 := by
      rw [e]
      norm_num
      rfl
    rw [hN] at hmap
    have hr : List.range 3 = [0, 1, 2] := rfl
    rw [hr, List.map_cons, List.map_cons, List.map_cons, List.map_nil] at hmap
    have hf0 : round4 ((0:ℚ) + ((0:ℕ) : ℚ) * (1/2)) = 0 := by
      norm_num [round4_zero]
    have hf1 : round4 ((0:ℚ) + ((1:ℕ) : ℚ) * (1/2)) = 1/2 := by
      have e1 : (0:ℚ) + ((1:ℕ) : ℚ) * (1/2) = ((5000 : ℤ) : ℚ) / 10000 := by
        push_cast
        norm_num
      rw [e1, round4_int_div]
      push_cast
      norm_num
    have hf2 : round4 ((0:ℚ) + ((2:ℕ) : ℚ) * (1/2)) = 1 := by
      norm_num [round4_one]
    rw [hf0, hf1, hf2] at hmap
    rw [hmap] at hok
    exact hok
  · have e2 : ((19:ℚ)/20 - 0) / (1/2) = 19/10 := by norm_num
    rw [e2, show ⌊(19:ℚ)/10⌋ = 1 from by rw [Int.floor_eq_iff] <;> norm_num]
    simp
  · simp
    norm_num
  · simp
  · norm_num

/-- C2 (witness): for min = 0.05, max = 0.95, step = 0.05 the scan succeeds
with exactly 19 thresholds, the last being 0.95. -/
theorem generate_thresholds_count_witness :
    ∃ L, generate_thresholds (1/20) (19/20) (1/20) = Except.ok L ∧
      L.length = 19 ∧ L.getLast? = some (19/20) := by
  obtain ⟨L, hok, _, _, hmult⟩ :=
    generate_thresholds_count (1/20) (19/20) (1/20) (by norm_num) (by norm_num)
  obtain ⟨h1, _, h3⟩ := hmult 18 (by push_cast; norm_num)
  refine ⟨L, hok, by rw [h1], ?_⟩
  rw [h3]
  have e1 : (19:ℚ)/20 = ((9500 : ℤ) : ℚ) / 10000 := by
    push_cast
    norm_num
  rw [e1, round4_int_div]

/-- C7 (amended): for step > 0.0001 (and max ≥ min) the emitted threshold
values are strictly increasing; for smaller steps the 4-decimal rounding can
produce duplicates. -/
theorem generate_thresholds_strict_mono (minT maxT step : ℚ)
    (hstep : 1/10000 < step) (hle : minT ≤ maxT) :
    ∃ L, generate_thresholds minT maxT step = Except.ok L ∧
      L.Pairwise (· < ·) := by
  have hs0 : 0 < step := lt_trans (by norm_num) hstep
  obtain ⟨L, hok, hmap⟩ := generate_thresholds_ok minT maxT step hs0 hle
  refine ⟨L, hok, ?_⟩
  rw [hmap, List.pairwise_map]
  refine List.Pairwise.imp ?_ (List.pairwise_lt_range _)
  intro a b hab
  have hcast : ((a : ℚ) + 1) ≤ (b : ℚ) := by exact_mod_cast Nat.succ_le_of_lt hab
  have h1 := round4_le (minT + (a : ℚ) * step)
  have h2 := le_round4 (minT + (b : ℚ) * step)
  have h3 : ((a : ℚ) + 1) * step ≤ (b : ℚ) * step :=
    mul_le_mul_of_nonneg_right hcast (le_of_lt hs0)
  have : minT + (a : ℚ) * step + 1/20000 < minT + (b : ℚ) * step - 1/20000 := by
    nlinarith
  linarith

/-- C7 (counterexample): with min = 0, max = 0.00002, step = 0.00001 the
generator emits [0, 0, 0] — thresholds rounded to 4 decimals collide, so the
sequence is not strictly increasing. -/
theorem generate_thresholds_strict_mono_counterexample :
    generate_thresholds 0 (2/100000) (1/100000) = Except.ok [0, 0, 0] ∧
    ¬ ([(0:ℚ), 0, 0].Pairwise (· < ·)) := by
  constructor
  · obtain ⟨L, hok, hmap⟩ :=
      generate_thresholds_ok 0 (2/100000) (1/100000) (by norm_num) (by norm_num)
    have e : ((2:ℚ)/100000 - 0 + (1/100000) / 10) / (1/100000) = 21/10 := by norm_num
    have hN : (⌊((2:ℚ)/100000 - 0 + (1/100000) / 10) / (1/100000)⌋ + 1).toNat = 3 := by
      rw [e, show ⌊(21:ℚ)/10⌋ = 2 from by rw [Int.floor_eq_iff] <;> norm_num]
      rfl
    rw [hN] at hmap
    have hr : List.range 3 = [0, 1, 2] := rfl
    rw [hr, List.map_cons, List.map_cons, List.map_cons, List.map_nil] at hmap
    have hf0 : round4 ((0:ℚ) + ((0:ℕ) : ℚ) * (1/100000)) = 0 := by
      norm_num [round4_zero]
    have hf1 : round4 ((0:ℚ) + ((1:ℕ) : ℚ) * (1/100000)) = 0 := by
      have h := round4_eq_down ((0:ℚ) + ((1:ℕ) : ℚ) * (1/100000)) 0
        (by push_cast; norm_num) (by push_cast; norm_num)
      simpa using h
    have hf2 : round4 ((0:ℚ) + ((2:ℕ) : ℚ) * (1/100000)) = 0 := by
      have h := round4_eq_down ((0:ℚ) + ((2:ℕ) : ℚ) * (1/100000)) 0
        (by push_cast; norm_num) (by push_cast; norm_num)
      simpa using h
    rw [hf0, hf1, hf2] at hmap
    rw [hmap] at hok
    exact hok
  · intro hp
    have := List.rel_of_pairwise_cons hp (List.mem_cons_self 0 [0])
    exact lt_irrefl 0 this

/-- C7 (witness): the default scan 0.05 … 0.95 by 0.05 is strictly
increasing. -/
theorem generate_thresholds_strict_mono_witness :
    ∃ L, generate_thresholds (1/20) (19/20) (1/20) = Except.ok L ∧
      L.Pairwise (· < ·) :=
  generate_thresholds_strict_mono (1/20) (19/20) (1/20) (by norm_num) (by norm_num)

/-! ## Per-threshold metrics (`compute_threshold_metrics` in
`calibrate_scores.py`)

`predictions = scores >= threshold`, `positives = labels == 1`; tp/fp/fn/tn
cross the two masks; derived rates use the `0 if denominator is 0` guard and
are rounded to 4 decimals; support counts depend on labels only. -/

structure ThresholdMetrics where
  threshold : ℚ
  tp : ℕ
  fp : ℕ
  tn : ℕ
  fn : ℕ
  precision : ℚ
  «recall» : ℚ
  fpr : ℚ
  fnr : ℚ
  support_positive : ℕ
  support_negative : ℕ
deriving DecidableEq

def compute_threshold_metrics (scores : List ℚ) (labels : List ℤ) (threshold : ℚ) :
    ThresholdMetrics :=
  let pairs := scores.zip labels
  let tp := (pairs.filter (fun p => decide (threshold ≤ p.1) && decide (p.2 = 1))).length
  let fp := (pairs.filter (fun p => decide (threshold ≤ p.1) && !(decide (p.2 = 1)))).length
  let fn := (pairs.filter (fun p => !(decide (threshold ≤ p.1)) && decide (p.2 = 1))).length
  let tn := (pairs.filter (fun p => !(decide (threshold ≤ p.1)) && !(decide (p.2 = 1)))).length
  { threshold := threshold
    tp := tp
    fp := fp
    tn := tn
    fn := fn
    precision := round4 (if tp + fp = 0 then 0 else (tp : ℚ) / ((tp : ℚ) + (fp : ℚ)))
    «recall» := round4 (if tp + fn = 0 then 0 else (tp : ℚ) / ((tp : ℚ) + (fn : ℚ)))
    fpr := round4 (if fp + tn = 0 then 0 else (fp : ℚ) / ((fp : ℚ) + (tn : ℚ)))
    fnr := round4 (if tp + fn = 0 then 0 else (fn : ℚ) / ((tp : ℚ) + (fn : ℚ)))
    support_positive := (labels.filter (fun l => decide (l = 1))).length
    support_negative := (labels.filter (fun l => !(decide (l = 1)))).length }

theorem length_filter_le_of_imp {α : Type} (l : List α) (p q : α → Bool)
    (h : ∀ a, p a = true → q a = true) :
    (l.filter p).length ≤ (l.filter q).length := by
  induction l with
  | nil => simp
  | cons a tl ih =>
    cases hp : p a
    · cases hq : q a <;> simp [List.filter_cons, hp, hq] <;> omega
    · have hq := h a hp
      simp [List.filter_cons, hp, hq]
      omega

theorem length_filter_and_add {α : Type} (l : List α) (p q : α → Bool) :
    (l.filter (fun a => p a && q a)).length
      + (l.filter (fun a => !(p a) && q a)).length = (l.filter q).length := by
  induction l with
  | nil => simp
  | cons a tl ih =>
    cases hp : p a <;> cases hq : q a <;> simp [List.filter_cons, hp, hq] <;> omega

theorem length_filter_add_not {α : Type} (l : List α) (q : α → Bool) :
    (l.filter q).length + (l.filter (fun a => !(q a))).length = l.length := by
  induction l with
  | nil => simp
  | cons a tl ih =>
    cases hq : q a <;> simp [List.filter_cons, hq] <;> omega

theorem zip_filter_snd {α β : Type} (f : β → Bool) :
    ∀ (s : List α) (l : List β), s.length = l.length →
      ((s.zip l).filter (fun p => f p.2)).length = (l.filter f).length
  | [], [], _ => by simp
  | [], _ :: _, h => by simp at h
  | _ :: _, [], h => by simp at h
  | a :: s, b :: l, h => by
    have h2 : s.length = l.length := by simpa using h
    cases hb : f b <;>
      simp [List.zip_cons_cons, List.filter_cons, hb, zip_filter_snd f s l h2]

theorem ctm_tp_def (scores : List ℚ) (labels : List ℤ) (t : ℚ) :
    (compute_threshold_metrics scores labels t).tp =
      ((scores.zip labels).filter (fun p => decide (t ≤ p.1) && decide (p.2 = 1))).length := rfl

theorem ctm_fp_def (scores : List ℚ) (labels : List ℤ) (t : ℚ) :
    (compute_threshold_metrics scores labels t).fp =
      ((scores.zip labels).filter (fun p => decide (t ≤ p.1) && !(decide (p.2 = 1)))).length := rfl

theorem ctm_fn_def (scores : List ℚ) (labels : List ℤ) (t : ℚ) :
    (compute_threshold_metrics scores labels t).fn =
      ((scores.zip labels).filter (fun p => !(decide (t ≤ p.1)) && decide (p.2 = 1))).length := rfl

theorem ctm_tn_def (scores : List ℚ) (labels : List ℤ) (t : ℚ) :
    (compute_threshold_metrics scores labels t).tn =
      ((scores.zip labels).filter (fun p => !(decide (t ≤ p.1)) && !(decide (p.2 = 1)))).length := rfl

theorem ctm_recall_def (scores : List ℚ) (labels : List ℤ) (t : ℚ) :
    (compute_threshold_metrics scores labels t).«recall» =
      round4 (if (compute_threshold_metrics scores labels t).tp
            + (compute_threshold_metrics scores labels t).fn = 0 then 0
        else ((compute_threshold_metrics scores labels t).tp : ℚ) /
          (((compute_threshold_metrics scores labels t).tp : ℚ)
            + ((compute_threshold_metrics scores labels t).fn : ℚ))) := rfl

theorem ctm_fpr_def (scores : List ℚ) (labels : List ℤ) (t : ℚ) :
    (compute_threshold_metrics scores labels t).fpr =
      round4 (if (compute_threshold_metrics scores labels t).fp
            + (compute_threshold_metrics scores labels t).tn = 0 then 0
        else ((compute_threshold_metrics scores labels t).fp : ℚ) /
          (((compute_threshold_metrics scores labels t).fp : ℚ)
            + ((compute_threshold_metrics scores labels t).tn : ℚ))) := rfl

theorem ctm_support_pos_def (scores : List ℚ) (labels : List ℤ) (t : ℚ) :
    (compute_threshold_metrics scores labels t).support_positive =
      (labels.filter (fun l => decide (l = 1))).length := rfl

theorem ctm_support_neg_def (scores : List ℚ) (labels : List ℤ) (t : ℚ) :
    (compute_threshold_metrics scores labels t).support_negative =
      (labels.filter (fun l => !(decide (l = 1)))).length := rfl

/-- C3: the per-threshold metric predicts positive iff score ≥ t, counts
tp/fp/tn/fn by crossing prediction against the true label, derives
precision, recall, fpr and fnr as the claimed ratios (0 when the denominator
is 0, rounded to 4 decimals); labels [1,1,0,0] with scores
[0.9,0.8,0.3,0.1] at threshold 0.5 give tp=2 fp=0 tn=2 fn=0
precision=1 recall=1. -/
theorem compute_threshold_metrics_correct :
    (∀ (scores : List ℚ) (labels : List ℤ) (t : ℚ),
      (compute_threshold_metrics scores labels t).tp =
        ((scores.zip labels).filter (fun p => decide (t ≤ p.1) && decide (p.2 = 1))).length ∧
      (compute_threshold_metrics scores labels t).fp =
        ((scores.zip labels).filter (fun p => decide (t ≤ p.1) && !(decide (p.2 = 1)))).length ∧
      (compute_threshold_metrics scores labels t).fn =
        ((scores.zip labels).filter (fun p => !(decide (t ≤ p.1)) && decide (p.2 = 1))).length ∧
      (compute_threshold_metrics scores labels t).tn =
        ((scores.zip labels).filter (fun p => !(decide (t ≤ p.1)) && !(decide (p.2 = 1)))).length ∧
      (compute_threshold_metrics scores labels t).precision =
        round4 (if (compute_threshold_metrics scores labels t).tp
              + (compute_threshold_metrics scores labels t).fp = 0 then 0
          else ((compute_threshold_metrics scores labels t).tp : ℚ) /
            (((compute_threshold_metrics scores labels t).tp : ℚ)
              + ((compute_threshold_metrics scores labels t).fp : ℚ))) ∧
      (compute_threshold_metrics scores labels t).«recall» =
        round4 (if (compute_threshold_metrics scores labels t).tp
              + (compute_threshold_metrics scores labels t).fn = 0 then 0
          else ((compute_threshold_metrics scores labels t).tp : ℚ) /
            (((compute_threshold_metrics scores labels t).tp : ℚ)
              + ((compute_threshold_metrics scores labels t).fn : ℚ))) ∧
      (compute_threshold_metrics scores labels t).fpr =
        round4 (if (compute_threshold_metrics scores labels t).fp
              + (compute_threshold_metrics scores labels t).tn = 0 then 0
          else ((compute_threshold_metrics scores labels t).fp : ℚ) /
            (((compute_threshold_metrics scores labels t).fp : ℚ)
              + ((compute_threshold_metrics scores labels t).tn : ℚ))) ∧
      (compute_threshold_metrics scores labels t).fnr =
        round4 (if (compute_threshold_metrics scores labels t).tp
              + (compute_threshold_metrics scores labels t).fn = 0 then 0
          else ((compute_threshold_metrics scores labels t).fn : ℚ) /
            (((compute_threshold_metrics scores labels t).tp : ℚ)
              + ((compute_threshold_metrics scores labels t).fn : ℚ)))) ∧
    ((compute_threshold_metrics [9/10, 8/10, 3/10, 1/10] [1, 1, 0, 0] (1/2)).tp = 2 ∧
      (compute_threshold_metrics [9/10, 8/10, 3/10, 1/10] [1, 1, 0, 0] (1/2)).fp = 0 ∧
      (compute_threshold_metrics [9/10, 8/10, 3/10, 1/10] [1, 1, 0, 0] (1/2)).tn = 2 ∧
      (compute_threshold_metrics [9/10, 8/10, 3/10, 1/10] [1, 1, 0, 0] (1/2)).fn = 0 ∧
      (compute_threshold_metrics [9/10, 8/10, 3/10, 1/10] [1, 1, 0, 0] (1/2)).precision = 1 ∧
      (compute_threshold_metrics [9/10, 8/10, 3/10, 1/10] [1, 1, 0, 0] (1/2)).«recall» = 1) := by
  constructor
  · intro scores labels t
    exact ⟨rfl, rfl, rfl, rfl, rfl, rfl, rfl, rfl⟩
  · norm_num [compute_threshold_metrics, List.zip_cons_cons, List.filter_cons,
      round4_zero, round4_one]

/-- C6: for fixed scores and labels, raising the threshold can only lower
(or keep) recall and the false-positive rate, including after the 4-decimal
rounding. -/
theorem compute_threshold_metrics_antitone (scores : List ℚ) (labels : List ℤ)
    (t1 t2 : ℚ) (h : t1 ≤ t2) :
    (compute_threshold_metrics scores labels t2).«recall» ≤
      (compute_threshold_metrics scores labels t1).«recall» ∧
    (compute_threshold_metrics scores labels t2).fpr ≤
      (compute_threshold_metrics scores labels t1).fpr := by
  have hpos2 := length_filter_and_add (scores.zip labels)
    (fun p => decide (t2 ≤ p.1)) (fun p => decide (p.2 = 1))
  have hpos1 := length_filter_and_add (scores.zip labels)
    (fun p => decide (t1 ≤ p.1)) (fun p => decide (p.2 = 1))
  have hneg2 := length_filter_and_add (scores.zip labels)
    (fun p => decide (t2 ≤ p.1)) (fun p => !(decide (p.2 = 1)))
  have hneg1 := length_filter_and_add (scores.zip labels)
    (fun p => decide (t1 ≤ p.1)) (fun p => !(decide (p.2 = 1)))
  have hP : (compute_threshold_metrics scores labels t2).tp
      + (compute_threshold_metrics scores labels t2).fn
      = (compute_threshold_metrics scores labels t1).tp
        + (compute_threshold_metrics scores labels t1).fn := by
    rw [ctm_tp_def, ctm_tp_def, ctm_fn_def, ctm_fn_def, hpos2, hpos1]
  have hN : (compute_threshold_metrics scores labels t2).fp
      + (compute_threshold_metrics scores labels t2).tn
      = (compute_threshold_metrics scores labels t1).fp
        + (compute_threshold_metrics scores labels t1).tn := by
    rw [ctm_fp_def, ctm_fp_def, ctm_tn_def, ctm_tn_def, hneg2, hneg1]
  have htp : (compute_threshold_metrics scores labels t2).tp ≤
      (compute_threshold_metrics scores labels t1).tp := by
    rw [ctm_tp_def, ctm_tp_def]
    refine length_filter_le_of_imp _ _ _ ?_
    intro a ha
    simp only [Bool.and_eq_true, decide_eq_true_eq] at ha ⊢
    exact ⟨le_trans h ha.1, ha.2⟩
  have hfp : (compute_threshold_metrics scores labels t2).fp ≤
      (compute_threshold_metrics scores labels t1).fp := by
    rw [ctm_fp_def, ctm_fp_def]
    refine length_filter_le_of_imp _ _ _ ?_
    intro a ha
    simp only [Bool.and_eq_true, decide_eq_true_eq] at ha ⊢
    exact ⟨le_trans h ha.1, ha.2⟩
  constructor
  · rw [ctm_recall_def, ctm_recall_def]
    rcases Nat.eq_zero_or_pos ((compute_threshold_metrics scores labels t1).tp
        + (compute_threshold_metrics scores labels t1).fn) with hz | hgt
    · rw [hz] at hP
      rw [if_pos hP, if_pos hz]
    · have hz2 : (compute_threshold_metrics scores labels t2).tp
          + (compute_threshold_metrics scores labels t2).fn ≠ 0 := by omega
      rw [if_neg hz2, if_neg (by omega)]
      apply round4_mono
      have hden : (((compute_threshold_metrics scores labels t2).tp : ℚ)
          + ((compute_threshold_metrics scores labels t2).fn : ℚ))
          = (((compute_threshold_metrics scores labels t1).tp : ℚ)
            + ((compute_threshold_metrics scores labels t1).fn : ℚ)) := by
        exact_mod_cast congrArg (Nat.cast : ℕ → ℚ) hP
      rw [hden]
      have hdenpos : (0:ℚ) < ((compute_threshold_metrics scores labels t1).tp : ℚ)
          + ((compute_threshold_metrics scores labels t1).fn : ℚ) := by
        exact_mod_cast hgt
      exact (div_le_div_iff_of_pos_right hdenpos).mpr (by exact_mod_cast htp)
  · rw [ctm_fpr_def, ctm_fpr_def]
    rcases Nat.eq_zero_or_pos ((compute_threshold_metrics scores labels t1).fp
        + (compute_threshold_metrics scores labels t1).tn) with hz | hgt
    · rw [hz] at hN
      rw [if_pos hN, if_pos hz]
    · have hz2 : (compute_threshold_metrics scores labels t2).fp
          + (compute_threshold_metrics scores labels t2).tn ≠ 0 := by omega
      rw [if_neg hz2, if_neg (by omega)]
      apply round4_mono
      have hden : (((compute_threshold_metrics scores labels t2).fp : ℚ)
          + ((compute_threshold_metrics scores labels t2).tn : ℚ))
          = (((compute_threshold_metrics scores labels t1).fp : ℚ)
            + ((compute_threshold_metrics scores labels t1).tn : ℚ)) := by
        exact_mod_cast congrArg (Nat.cast : ℕ → ℚ) hN
      rw [hden]
      have hdenpos : (0:ℚ) < ((compute_threshold_metrics scores labels t1).fp : ℚ)
          + ((compute_threshold_metrics scores labels t1).tn : ℚ) := by
        exact_mod_cast hgt
      exact (div_le_div_iff_of_pos_right hdenpos).mpr (by exact_mod_cast hfp)

/-- C6 (witness): on the fixture scores/labels, moving the threshold from
0.3 up to 0.5 does not increase recall or fpr. -/
theorem compute_threshold_metrics_antitone_witness :
    (compute_threshold_metrics [9/10, 8/10, 3/10, 1/10] [1, 1, 0, 0] (1/2)).«recall» ≤
      (compute_threshold_metrics [9/10, 8/10, 3/10, 1/10] [1, 1, 0, 0] (3/10)).«recall» ∧
    (compute_threshold_metrics [9/10, 8/10, 3/10, 1/10] [1, 1, 0, 0] (1/2)).fpr ≤
      (compute_threshold_metrics [9/10, 8/10, 3/10, 1/10] [1, 1, 0, 0] (3/10)).fpr :=
  compute_threshold_metrics_antitone [9/10, 8/10, 3/10, 1/10] [1, 1, 0, 0]
    (3/10) (1/2) (by norm_num)

/-- C10: with equal-length score/label arrays and binary labels,
tp + fn = support_positive, fp + tn = support_negative,
tp + fp + tn + fn = sample count, and the support counts do not depend on
the threshold. -/
theorem compute_threshold_metrics_partition (scores : List ℚ) (labels : List ℤ)
    (t t2 : ℚ) (hlen : scores.length = labels.length)
    (_hlab : ∀ l ∈ labels, l = 0 ∨ l = 1) :
    (compute_threshold_metrics scores labels t).tp
        + (compute_threshold_metrics scores labels t).fn
      = (compute_threshold_metrics scores labels t).support_positive ∧
    (compute_threshold_metrics scores labels t).fp
        + (compute_threshold_metrics scores labels t).tn
      = (compute_threshold_metrics scores labels t).support_negative ∧
    (compute_threshold_metrics scores labels t).tp
        + (compute_threshold_metrics scores labels t).fp
        + (compute_threshold_metrics scores labels t).tn
        + (compute_threshold_metrics scores labels t).fn
      = labels.length ∧
    (compute_threshold_metrics scores labels t2).support_positive
      = (compute_threshold_metrics scores labels t).support_positive ∧
    (compute_threshold_metrics scores labels t2).support_negative
      = (compute_threshold_metrics scores labels t).support_negative := by
  have hpos : (compute_threshold_metrics scores labels t).tp
      + (compute_threshold_metrics scores labels t).fn
      = (compute_threshold_metrics scores labels t).support_positive := by
    rw [ctm_tp_def, ctm_fn_def, ctm_support_pos_def,
      length_filter_and_add (scores.zip labels)
        (fun p => decide (t ≤ p.1)) (fun p => decide (p.2 = 1))]
    exact zip_filter_snd (fun l => decide (l = 1)) scores labels hlen
  have hneg : (compute_threshold_metrics scores labels t).fp
      + (compute_threshold_metrics scores labels t).tn
      = (compute_threshold_metrics scores labels t).support_negative := by
    rw [ctm_fp_def, ctm_tn_def, ctm_support_neg_def,
      length_filter_and_add (scores.zip labels)
        (fun p => decide (t ≤ p.1)) (fun p => !(decide (p.2 = 1)))]
    exact zip_filter_snd (fun l => !(decide (l = 1))) scores labels hlen
  have htot : (compute_threshold_metrics scores labels t).support_positive
      + (compute_threshold_metrics scores labels t).support_negative
      = labels.length := by
    rw [ctm_support_pos_def, ctm_support_neg_def]
    exact length_filter_add_not labels (fun l => decide (l = 1))
  exact ⟨hpos, hneg, by omega, rfl, rfl⟩

/-- C10 (witness): the invariants instantiated on the fixture data at
thresholds 0.5 and 0.3. -/
theorem compute_threshold_metrics_partition_witness :
    (compute_threshold_metrics [9/10, 8/10, 3/10, 1/10] [1, 1, 0, 0] (1/2)).tp
        + (compute_threshold_metrics [9/10, 8/10, 3/10, 1/10] [1, 1, 0, 0] (1/2)).fn
      = (compute_threshold_metrics [9/10, 8/10, 3/10, 1/10] [1, 1, 0, 0] (1/2)).support_positive ∧
    (compute_threshold_metrics [9/10, 8/10, 3/10, 1/10] [1, 1, 0, 0] (1/2)).fp
        + (compute_threshold_metrics [9/10, 8/10, 3/10, 1/10] [1, 1, 0, 0] (1/2)).tn
      = (compute_threshold_metrics [9/10, 8/10, 3/10, 1/10] [1, 1, 0, 0] (1/2)).support_negative ∧
    (compute_threshold_metrics [9/10, 8/10, 3/10, 1/10] [1, 1, 0, 0] (1/2)).tp
        + (compute_threshold_metrics [9/10, 8/10, 3/10, 1/10] [1, 1, 0, 0] (1/2)).fp
        + (compute_threshold_metrics [9/10, 8/10, 3/10, 1/10] [1, 1, 0, 0] (1/2)).tn
        + (compute_threshold_metrics [9/10, 8/10, 3/10, 1/10] [1, 1, 0, 0] (1/2)).fn
      = ([1, 1, 0, 0] : List ℤ).length ∧
    (compute_threshold_metrics [9/10, 8/10, 3/10, 1/10] [1, 1, 0, 0] (3/10)).support_positive
      = (compute_threshold_metrics [9/10, 8/10, 3/10, 1/10] [1, 1, 0, 0] (1/2)).support_positive ∧
    (compute_threshold_metrics [9/10, 8/10, 3/10, 1/10] [1, 1, 0, 0] (3/10)).support_negative
      = (compute_threshold_metrics [9/10, 8/10, 3/10, 1/10] [1, 1, 0, 0] (1/2)).support_negative :=
  compute_threshold_metrics_partition [9/10, 8/10, 3/10, 1/10] [1, 1, 0, 0]
    (1/2) (3/10) rfl (by decide)

/-! ## Tree serialization (`tree_to_json` in `train_forest.py`)

The sklearn tree arrays are per-node: split feature index (or the sentinel
`_tree.TREE_UNDEFINED = -2` for leaves), split threshold, left/right child
indices, and the two per-class weighted sample counts `value[node][0]`.
`recurse` emits `{"t":"n","f":…,"v":round(threshold,4),"l":…,"r":…}` for an
internal node and `{"t":"l","v":round(proba,4)}` for a leaf, with
`proba = value[1]/total if total else 0.0`.  The Python recursion carries no
fuel; the embedding adds a fuel argument (the wrapper passes node count + 1)
so that malformed child arrays yield `none` instead of divergence. -/

def TREE_UNDEFINED : ℤ := -2

def undefinedName : String := "undefined!"

inductive JNode where
  | leaf (v : ℚ)
  | node (f : String) (v : ℚ) (l : JNode) (r : JNode)
deriving DecidableEq

structure SkTree where
  feature : List ℤ
  threshold : List ℚ
  children_left : List ℤ
  children_right : List ℤ
  value : List (ℚ × ℚ)

def tree_to_json_aux (t : SkTree) (feature_names : List String) :
    ℕ → ℕ → Option JNode
  | 0, _ => none
  | fuel + 1, node =>
    if t.feature.getD node TREE_UNDEFINED ≠ TREE_UNDEFINED then
      match tree_to_json_aux t feature_names fuel (t.children_left.getD node (-1)).toNat,
          tree_to_json_aux t feature_names fuel (t.children_right.getD node (-1)).toNat with
      | some l, some r =>
        some (JNode.node
          (feature_names.getD (t.feature.getD node TREE_UNDEFINED).toNat undefinedName)
          (round4 (t.threshold.getD node 0)) l r)
      | _, _ => none
    else
      some (JNode.leaf (round4
        (if (t.value.getD node (0, 0)).1 + (t.value.getD node (0, 0)).2 = 0 then 0
         else (t.value.getD node (0, 0)).2 /
           ((t.value.getD node (0, 0)).1 + (t.value.getD node (0, 0)).2))))

def tree_to_json (t : SkTree) (feature_names : List String) : Option JNode :=
  tree_to_json_aux t feature_names (t.feature.length + 1) 0

/-- The leaf probabilities appearing in a serialized tree. -/
def leafVals : JNode → List ℚ
  | JNode.leaf v => [v]
  | JNode.node _ _ l r => leafVals l ++ leafVals r

/-- A degenerate single-node tree: the root is already a leaf with class
counts (3, 1). -/
def leafTreeEx : SkTree :=
  { feature := [-2]
    threshold := [0]
    children_left := [-1]
    children_right := [-1]
    value := [(3, 1)] }

/-- C5: a node serializes to a Leaf exactly when its feature index is the
reserved sentinel; otherwise it serializes to an Internal node carrying the
feature name resolved by index, the threshold rounded to 4 decimals, and the
recursively encoded children.  A root that is a leaf yields a bare Leaf
(no feature, threshold, or child fields). -/
theorem tree_to_json_node_shape (t : SkTree) (names : List String)
    (fuel node : ℕ) (j : JNode)
    (hj : tree_to_json_aux t names (fuel + 1) node = some j) :
    ((∃ v, j = JNode.leaf v) ↔ t.feature.getD node TREE_UNDEFINED = TREE_UNDEFINED) ∧
    (t.feature.getD node TREE_UNDEFINED = TREE_UNDEFINED →
      j = JNode.leaf (round4
        (if (t.value.getD node (0, 0)).1 + (t.value.getD node (0, 0)).2 = 0 then 0
         else (t.value.getD node (0, 0)).2 /
           ((t.value.getD node (0, 0)).1 + (t.value.getD node (0, 0)).2)))) ∧
    (t.feature.getD node TREE_UNDEFINED ≠ TREE_UNDEFINED →
      ∃ l r, tree_to_json_aux t names fuel (t.children_left.getD node (-1)).toNat = some l ∧
        tree_to_json_aux t names fuel (t.children_right.getD node (-1)).toNat = some r ∧
        j = JNode.node
          (names.getD (t.feature.getD node TREE_UNDEFINED).toNat undefinedName)
          (round4 (t.threshold.getD node 0)) l r) := by
  simp only [tree_to_json_aux] at hj
  by_cases hf : t.feature.getD node TREE_UNDEFINED = TREE_UNDEFINED
  · rw [if_neg (not_not_intro hf)] at hj
    have hje := Option.some.inj hj
    subst hje
    refine ⟨⟨fun _ => hf, fun _ => ⟨_, rfl⟩⟩, fun _ => rfl, fun hne => absurd hf hne⟩
  · rw [if_pos hf] at hj
    cases hl : tree_to_json_aux t names fuel (t.children_left.getD node (-1)).toNat with
    | none =>
      rw [hl] at hj
      simp at hj
    | some l =>
      cases hr : tree_to_json_aux t names fuel (t.children_right.getD node (-1)).toNat with
      | none =>
        rw [hl, hr] at hj
        simp at hj
      | some r =>
        rw [hl, hr] at hj
        simp only [Option.some.injEq] at hj
        subst hj
        refine ⟨⟨?_, fun hsent => absurd hsent hf⟩, fun hsent => absurd hsent hf,
          fun _ => ⟨l, r, rfl, rfl, rfl⟩⟩
        rintro ⟨v, hv⟩
        exact JNode.noConfusion hv

/-- C5 (witness): the degenerate single-leaf tree serializes to a bare Leaf,
and the Leaf shape coincides with the sentinel test on the root. -/
theorem tree_to_json_node_shape_witness :
    tree_to_json leafTreeEx [] = some (JNode.leaf (round4 (1/4))) ∧
    ((∃ v, JNode.leaf (round4 (1/4)) = JNode.leaf v) ↔
      leafTreeEx.feature.getD 0 TREE_UNDEFINED = TREE_UNDEFINED) := by
  have e : tree_to_json leafTreeEx [] = some (JNode.leaf (round4 (1/4))) := by
    norm_num [tree_to_json, tree_to_json_aux, leafTreeEx, TREE_UNDEFINED]
  exact ⟨e, (tree_to_json_node_shape leafTreeEx [] 1 0 _ e).1⟩

/-- The rounded class-1 ratio stored at node `i` lies in [0, 1] when all
per-class counts are non-negative. -/
theorem leaf_formula_mem_unit (t : SkTree)
    (hval : ∀ p ∈ t.value, 0 ≤ p.1 ∧ 0 ≤ p.2) (i : ℕ) :
    0 ≤ round4 (if (t.value.getD i (0, 0)).1 + (t.value.getD i (0, 0)).2 = 0 then 0
        else (t.value.getD i (0, 0)).2 /
          ((t.value.getD i (0, 0)).1 + (t.value.getD i (0, 0)).2)) ∧
      round4 (if (t.value.getD i (0, 0)).1 + (t.value.getD i (0, 0)).2 = 0 then 0
        else (t.value.getD i (0, 0)).2 /
          ((t.value.getD i (0, 0)).1 + (t.value.getD i (0, 0)).2)) ≤ 1 := by
  have hc : 0 ≤ (t.value.getD i (0, 0)).1 ∧ 0 ≤ (t.value.getD i (0, 0)).2 := by
    by_cases hlt : i < t.value.length
    · refine hval _ ?_
      rw [List.getD_eq_getElem t.value _ hlt]
      exact List.getElem_mem hlt
    · rw [List.getD_eq_default t.value (0, 0) (le_of_not_lt hlt)]
      exact ⟨le_refl 0, le_refl 0⟩
  by_cases hz : (t.value.getD i (0, 0)).1 + (t.value.getD i (0, 0)).2 = 0
  · rw [if_pos hz, round4_zero]
    exact ⟨le_refl 0, by norm_num⟩
  · rw [if_neg hz]
    have hpos : 0 < (t.value.getD i (0, 0)).1 + (t.value.getD i (0, 0)).2 := by
      rcases lt_or_eq_of_le (add_nonneg hc.1 hc.2) with hp | hp
      · exact hp
      · exact absurd hp.symm hz
    exact round4_mem_unit (div_nonneg hc.2 (le_of_lt hpos))
      ((div_le_one hpos).mpr (by linarith [hc.1]))

/-- C1: (a) whenever serializing node `i` yields a Leaf, its value is exactly
`round4` of `count1 / (count1 + count0)` computed from that node's own
per-class counts (0 when the total is 0); (b) every leaf value nested in a
serialized tree is that ratio for some sentinel (leaf) node of the tree;
given non-negative counts, all these values lie in [0, 1]. -/
theorem tree_to_json_leaf_range (t : SkTree) (names : List String)
    (hval : ∀ p ∈ t.value, 0 ≤ p.1 ∧ 0 ≤ p.2) :
    (∀ (fuel i : ℕ) (v : ℚ),
      tree_to_json_aux t names fuel i = some (JNode.leaf v) →
        t.feature.getD i TREE_UNDEFINED = TREE_UNDEFINED ∧
        v = round4 (if (t.value.getD i (0, 0)).1 + (t.value.getD i (0, 0)).2 = 0 then 0
          else (t.value.getD i (0, 0)).2 /
            ((t.value.getD i (0, 0)).1 + (t.value.getD i (0, 0)).2)) ∧
        0 ≤ v ∧ v ≤ 1) ∧
    (∀ (fuel i : ℕ) (j : JNode), tree_to_json_aux t names fuel i = some j →
      ∀ v ∈ leafVals j,
        (∃ i2, t.feature.getD i2 TREE_UNDEFINED = TREE_UNDEFINED ∧
          v = round4 (if (t.value.getD i2 (0, 0)).1 + (t.value.getD i2 (0, 0)).2 = 0 then 0
            else (t.value.getD i2 (0, 0)).2 /
              ((t.value.getD i2 (0, 0)).1 + (t.value.getD i2 (0, 0)).2))) ∧
        0 ≤ v ∧ v ≤ 1) := by
  constructor
  · intro fuel i v hj
    cases fuel with
    | zero => simp [tree_to_json_aux] at hj
    | succ fuel =>
      simp only [tree_to_json_aux] at hj
      by_cases hf : t.feature.getD i TREE_UNDEFINED = TREE_UNDEFINED
      · rw [if_neg (not_not_intro hf)] at hj
        have hje := Option.some.inj hj
        injection hje with hv
        refine ⟨hf, hv.symm, ?_⟩
        rw [← hv]
        exact leaf_formula_mem_unit t hval i
      · rw [if_pos hf] at hj
        cases hl : tree_to_json_aux t names fuel (t.children_left.getD i (-1)).toNat with
        | none =>
          rw [hl] at hj
          simp at hj
        | some l =>
          cases hr : tree_to_json_aux t names fuel (t.children_right.getD i (-1)).toNat with
          | none =>
            rw [hl, hr] at hj
            simp at hj
          | some r =>
            rw [hl, hr] at hj
            simp at hj
  · intro fuel
    induction fuel with
    | zero =>
      intro i j hj
      simp [tree_to_json_aux] at hj
    | succ fuel ih =>
      intro i j hj
      simp only [tree_to_json_aux] at hj
      by_cases hf : t.feature.getD i TREE_UNDEFINED = TREE_UNDEFINED
      · rw [if_neg (not_not_intro hf)] at hj
        have hje := Option.some.inj hj
        subst hje
        intro v hv
        simp only [leafVals, List.mem_singleton] at hv
        subst hv
        exact ⟨⟨i, hf, rfl⟩, leaf_formula_mem_unit t hval i⟩
      · rw [if_pos hf] at hj
        cases hl : tree_to_json_aux t names fuel (t.children_left.getD i (-1)).toNat with
        | none =>
          rw [hl] at hj
          simp at hj
        | some l =>
          cases hr : tree_to_json_aux t names fuel (t.children_right.getD i (-1)).toNat with
          | none =>
            rw [hl, hr] at hj
            simp at hj
          | some r =>
            rw [hl, hr] at hj
            simp only [Option.some.injEq] at hj
            subst hj
            intro v hv
            simp only [leafVals, List.mem_append] at hv
            rcases hv with hvl | hvr
            · exact ih _ l hl v hvl
            · exact ih _ r hr v hvr

/-- C1 (witness): serializing the root of the single-leaf tree yields the
leaf value round4(1/4), which is exactly the rounded class-1 ratio of that
node's own counts (3, 1) and lies in [0, 1]. -/
theorem tree_to_json_leaf_range_witness :
    leafTreeEx.feature.getD 0 TREE_UNDEFINED = TREE_UNDEFINED ∧
    round4 (1/4) = round4
      (if (leafTreeEx.value.getD 0 (0, 0)).1 + (leafTreeEx.value.getD 0 (0, 0)).2 = 0 then 0
       else (leafTreeEx.value.getD 0 (0, 0)).2 /
         ((leafTreeEx.value.getD 0 (0, 0)).1 + (leafTreeEx.value.getD 0 (0, 0)).2)) ∧
    0 ≤ round4 (1/4) ∧ round4 (1/4) ≤ 1 := by
  have e : tree_to_json_aux leafTreeEx [] 2 0 = some (JNode.leaf (round4 (1/4))) := by
    norm_num [tree_to_json_aux, leafTreeEx, TREE_UNDEFINED]
  have hval : ∀ p ∈ leafTreeEx.value, 0 ≤ p.1 ∧ 0 ≤ p.2 := by
    intro p hp
    simp only [leafTreeEx, List.mem_singleton] at hp
    subst hp
    norm_num
  exact (tree_to_json_leaf_range leafTreeEx [] hval).1 2 0 (round4 (1/4)) e

/-! ## Sample weighting (`calculate_sample_weights` in `train_forest.py`)

`weights = np.ones(len(df))`; if both conflict-zone columns are present,
rows with `bigram_entropy > 3.0` and `domain_reputation_score >= 0.6` get
`conflict_weight`; otherwise a warning is printed and all weights stay 1.
A row is modelled as a function from column name to value. -/

def bigramCol : String := "bigram_entropy"

def domainCol : String := "domain_reputation_score"

structure DataFrame where
  columns : List String
  rows : List (String → ℚ)

def calculate_sample_weights (X : DataFrame) (conflict_weight : ℚ) : List ℚ :=
  if bigramCol ∈ X.columns ∧ domainCol ∈ X.columns then
    X.rows.map (fun row =>
      if 3 < row bigramCol ∧ 6/10 ≤ row domainCol then conflict_weight else 1)
  else
    X.rows.map (fun _ => 1)

/-- C4: the weight vector has one entry per row; when both conflict-zone
columns exist, a row gets weight W exactly when entropy > 3 and
reputation ≥ 0.6, and 1.0 otherwise; when either column is missing every
row gets weight 1.0. -/
theorem calculate_sample_weights_spec (X : DataFrame) (W : ℚ) :
    (calculate_sample_weights X W).length = X.rows.length ∧
    (bigramCol ∈ X.columns → domainCol ∈ X.columns → ∀ i, i < X.rows.length →
      (calculate_sample_weights X W).getD i 0 =
        if 3 < (X.rows.getD i (fun _ => 0)) bigramCol
            ∧ 6/10 ≤ (X.rows.getD i (fun _ => 0)) domainCol
        then W else 1) ∧
    ((bigramCol ∉ X.columns ∨ domainCol ∉ X.columns) →
      ∀ w ∈ calculate_sample_weights X W, w = 1) := by
  by_cases hc : bigramCol ∈ X.columns ∧ domainCol ∈ X.columns
  · rw [calculate_sample_weights, if_pos hc]
    refine ⟨List.length_map _ _, ?_, ?_⟩
    · intro _ _ i hi
      have hi2 : i < (X.rows.map (fun row =>
          if 3 < row bigramCol ∧ 6/10 ≤ row domainCol then W else 1)).length := by
        simpa using hi
      rw [List.getD_eq_getElem _ _ hi2, List.getElem_map,
        List.getD_eq_getElem _ _ hi]
    · intro habs
      rcases habs with h | h
      · exact absurd hc.1 h
      · exact absurd hc.2 h
  · rw [calculate_sample_weights, if_neg hc]
    refine ⟨List.length_map _ _, ?_, ?_⟩
    · intro h1 h2
      exact absurd ⟨h1, h2⟩ hc
    · intro _ w hw
      rcases List.mem_map.mp hw with ⟨r, -, hfw⟩
      exact hfw.symm

/-- A two-row fixture: the first row is in the conflict zone, the second is
not. -/
def exDF : DataFrame :=
  { columns := [bigramCol, domainCol]
    rows := [fun s => if s = bigramCol then 4 else 1, fun _ => 0] }

/-- C4 (witness): on the fixture, row 0 receives the conflict weight
formula value. -/
theorem calculate_sample_weights_spec_witness :
    (calculate_sample_weights exDF 20).getD 0 0 =
      if 3 < (exDF.rows.getD 0 (fun _ => 0)) bigramCol
          ∧ 6/10 ≤ (exDF.rows.getD 0 (fun _ => 0)) domainCol
      then 20 else 1 :=
  (calculate_sample_weights_spec exDF 20).2.1 (by simp [exDF])
    (by simp [exDF]) 0 (by norm_num [exDF])

/-! ## Fatal validations of `calibrate_scores.py main`

`main` aborts when the input file is missing or the CSV lacks the
`score`/`label` columns, then (after the calibration fit, which is external
library code) `generate_thresholds` aborts on a non-positive step or an
inverted range.  The file-system and CSV state is abstracted to a Bool and
the column-name list. -/

def scoreCol : String := "score"

def labelCol : String := "label"

def calibrate_scores_checks (inputExists : Bool) (columns : List String)
    (minT maxT step : ℚ) : Except String (List ℚ) :=
  if inputExists = false then Except.error errMissingInput
  else if scoreCol ∉ columns ∨ labelCol ∉ columns then Except.error errMissingColumns
  else generate_thresholds minT maxT step

/-- C8: the calibrate-scores validation chain fails with an error message
exactly when the input file is missing, a `score`/`label` column is absent,
the step is ≤ 0, or max < min; when none of these holds no check aborts. -/
theorem calibrate_scores_checks_error_iff (inputExists : Bool) (columns : List String)
    (minT maxT step : ℚ) :
    (∃ msg, calibrate_scores_checks inputExists columns minT maxT step
        = Except.error msg) ↔
      (inputExists = false ∨ scoreCol ∉ columns ∨ labelCol ∉ columns
        ∨ step ≤ 0 ∨ maxT < minT) := by
  unfold calibrate_scores_checks generate_thresholds
  by_cases h1 : inputExists = false
  · simp [h1]
  · rw [if_neg h1]
    by_cases h2 : scoreCol ∉ columns ∨ labelCol ∉ columns
    · rw [if_pos h2]
      constructor
      · intro _
        refine Or.inr ?_
        rcases h2 with h | h
        · exact Or.inl h
        · exact Or.inr (Or.inl h)
      · intro _
        exact ⟨errMissingColumns, rfl⟩
    · rw [if_neg h2]
      by_cases h3 : step ≤ 0
      · rw [dif_pos h3]
        simp [h1, h2, h3]
      · rw [dif_neg h3]
        by_cases h4 : maxT < minT
        · rw [if_pos h4]
          simp [h1, h2, h3, h4]
        · rw [if_neg h4]
          simp [h1, h3, h4, not_or] at h2 ⊢
          exact ⟨h2.1, h2.2⟩

/-! ## Platt calibration (`CalibrationModel`)

Modelled from the spec: the calibration record stores `intercept` and
`coefficient`, and the scoring runtime (not under `src/`; the fit itself is
delegated to the external learning library) applies
`calibrated(s) = sigmoid(intercept + coefficient · s)` with
`sigmoid(z) = 1 / (1 + exp(-z))`. -/

structure CalibrationModel where
  intercept : ℝ
  coefficient : ℝ

/-- Modelled from the spec: the logistic sigmoid used to apply a Platt
calibration model. -/
noncomputable def sigmoid (z : ℝ) : ℝ := 1 / (1 + Real.exp (-z))

/-- Modelled from the spec: applying a CalibrationModel to a raw score. -/
noncomputable def calibrated (m : CalibrationModel) (s : ℝ) : ℝ :=
  sigmoid (m.intercept + m.coefficient * s)

/-- C9: calibrated outputs lie strictly between 0 and 1 for every model and
every finite raw score. -/
theorem calibrated_mem_Ioo (m : CalibrationModel) (s : ℝ) :
    0 < calibrated m s ∧ calibrated m s < 1 := by
  unfold calibrated sigmoid
  have he : 0 < Real.exp (-(m.intercept + m.coefficient * s)) := Real.exp_pos _
  constructor
  · exact div_pos one_pos (by linarith)
  · rw [div_lt_one (by linarith)]
    linarith
